import Mathlib

/-!
Panorama stitching driver (`stitch_main.cpp`): match-matrix assembly, start-up
validation and median focal length.

A shallow embedding of the sequential parts of `main` in
`graphlabapi/toolkits/computer_vision/stitch_main.cpp`:

* the option validation that follows command-line parsing (lines 79-101),
* the "compile matches" loop that fills `pairwise_matches` from `edlist`
  (lines 157-207) and the hand-over to the homography based estimator
  (line 215),
* the median focal length computation (lines 254-266).

Conventions of the embedding.

* `size_t` and `int` loop variables are natural numbers; every value that
  occurs is bounded by `edlist.size()`, so machine width plays no role.
* `cv::Mat` is an abstract type `Mat`; its two operations used by the loop,
  `empty()` and `inv()`, are the fields of `MatOps`.
* `float`/`double` payloads that are only copied (`confidence`, `distance`) are
  values of an abstract type `R`.
* Floating-point values that are computed with (the focal lengths) are the
  rationals they denote; every rounding step of the source is an explicit
  rounding function (`toDouble` for a double-precision result, `toFloat` for
  `static_cast<float>` and for a single-precision result).
* Undefined behaviour of the C++ program (division by zero, reading a vector
  outside its bounds) is the result `none`.
-/

namespace Stitch

/-! ## Data model -/

/-- The OpenCV correspondence record `cv::DMatch`. -/
structure DMatch (R : Type) where
  queryIdx : Int
  trainIdx : Int
  imgIdx : Int
  distance : R
deriving DecidableEq

/-- The OpenCV record `cv::detail::MatchesInfo`: one cell of the pairwise match
matrix. -/
structure MatchesInfo (Mat R : Type) where
  src_img_idx : Int
  dst_img_idx : Int
  /-- The field `matches` of the source (a reserved word here). -/
  matches_ : List (DMatch R)
  inliers_mask : List Nat
  num_inliers : Int
  H : Mat
  confidence : R
deriving DecidableEq

/-- The edge record collected by `map_reduce_edges`; the loop reads only its
`matchinfo` field. -/
structure edge_data (Mat R : Type) where
  matchinfo : MatchesInfo Mat R
deriving DecidableEq

/-- The two `cv::Mat` operations used by the loop: `H.empty()` and `H.inv()`. -/
structure MatOps (Mat : Type) where
  empty : Mat → Bool
  inv : Mat → Mat

/-! ## Index arithmetic -/

/-- Modelled from the spec: the macro `IND2SUB_RM(ind, r, c, ncols)` is declared
in `stitch_main.hpp`, which is not part of the sources at hand.  The spec gives
the row-major decomposition `r = i / N`, `c = i mod N`.  Division by zero is
undefined in C++, hence `none` for `ncols = 0`. -/
def IND2SUB_RM (ind ncols : Nat) : Option (Nat × Nat) :=
  if ncols = 0 then none else some (ind / ncols, ind % ncols)

/-- Modelled from the spec: the macro `SUB2IND_RM(r, c, ncols)` is declared in
`stitch_main.hpp`, which is not part of the sources at hand.  The spec calls it
"the linear index of (r, c)" of a row-major matrix with `ncols` columns. -/
def SUB2IND_RM (r c ncols : Nat) : Nat :=
  r * ncols + c

/-- Lines 178-181: the index at which the collected list is read for the cell
`(r, c)` with linear index `i`. -/
def pair_idx (i r c num_images : Nat) : Nat :=
  if r < c then i else SUB2IND_RM c r num_images

/-! ## The "compile matches" loop -/

/-- The `std::swap` of line 193 applied to one correspondence. -/
def swapIdx {R : Type} (m : DMatch R) : DMatch R :=
  { m with queryIdx := m.trainIdx, trainIdx := m.queryIdx }

/-- Lines 187-195: the body of `if (r>c)`: invert a non-empty transform and swap
the endpoint indices of every correspondence. -/
def swapInvert {Mat R : Type} (ops : MatOps Mat) (e : MatchesInfo Mat R) :
    MatchesInfo Mat R :=
  { e with
    H := if ops.empty e.H then e.H else ops.inv e.H,
    matches_ := e.matches_.map swapIdx }

/-- Lines 183-195: the value stored in `pairwise_matches[i]` from the record
`rec` read at `pair_idx`. -/
def buildEntry {Mat R : Type} (ops : MatOps Mat) (rec : edge_data Mat R)
    (r c : Nat) : MatchesInfo Mat R :=
  let e : MatchesInfo Mat R :=
    { rec.matchinfo with src_img_idx := (r : Int), dst_img_idx := (c : Int) }
  if c < r then swapInvert ops e else e

/-- One iteration of the loop of lines 171-206 at index `i`, acting on the
vector `pm` (`pairwise_matches`).  `none` is undefined behaviour. -/
def compileStep {Mat R : Type} (ops : MatOps Mat) (num_images : Nat)
    (edlist : List (edge_data Mat R)) (pm : List (MatchesInfo Mat R)) (i : Nat) :
    Option (List (MatchesInfo Mat R)) :=
  match IND2SUB_RM i num_images with
  | none => none
  | some (r, c) =>
    if r = c then some pm
    else
      match edlist[pair_idx i r c num_images]? with
      | none => none
      | some rec =>
        if i < pm.length then some (pm.set i (buildEntry ops rec r c)) else none

/-- The loop `for (size_t i=0; i!=edlist.size(); ++i)`: `todo` iterations remain,
the next index is `i`. -/
def compileLoop {Mat R : Type} (ops : MatOps Mat) (num_images : Nat)
    (edlist : List (edge_data Mat R)) :
    Nat → Nat → List (MatchesInfo Mat R) → Option (List (MatchesInfo Mat R))
  | 0, _, pm => some pm
  | todo + 1, i, pm =>
    match compileStep ops num_images edlist pm i with
    | none => none
    | some pm1 => compileLoop ops num_images edlist todo (i + 1) pm1

/-- Lines 169-206: `pairwise_matches` is allocated with `edlist.size()` default
cells (`dflt` is the value of the default constructor `MatchesInfo()`), then the
loop runs over every index of `edlist`. -/
def compile_matches_loop {Mat R : Type} (ops : MatOps Mat) (dflt : MatchesInfo Mat R)
    (num_images : Nat) (edlist : List (edge_data Mat R)) :
    Option (List (MatchesInfo Mat R)) :=
  compileLoop ops num_images edlist edlist.length 0
    (List.replicate edlist.length dflt)

/-! ## Start-up and hand-over to the estimator -/

/-- The value of `EXIT_SUCCESS`. -/
def EXIT_SUCCESS : Int := 0

/-- The value of `EXIT_FAILURE`. -/
def EXIT_FAILURE : Int := 1

/-- Lines 79-101.  `parse_ok` is the result of `clopts.parse(argc, argv)` and
`help_set` that of `clopts.is_set("help")`; the remaining arguments are the
option values after parsing.  `some code` is a `return code` taken before the
feature graph is constructed, `none` means that line 117 is reached. -/
def startup (parse_ok help_set : Bool) (img_dir graph_path : String)
    (work_megapix : ℚ) : Option Int :=
  if !parse_ok then
    some (if help_set then EXIT_SUCCESS else EXIT_FAILURE)
  else if img_dir.isEmpty then some EXIT_FAILURE
  else if graph_path.isEmpty then some EXIT_FAILURE
  else if work_megapix > 10 then some EXIT_FAILURE
  else none

/-- How far a run gets, up to line 215. -/
inductive Outcome (Mat R : Type) where
  /-- The process returned `code` before graph construction (lines 79-101). -/
  | exited (code : Int)
  /-- The compile loop ran into undefined behaviour. -/
  | undefined
  /-- Line 215 is reached: `estimator(features, pairwise_matches, cameras)` is
  called with `num_images` feature sets and the given matrix. -/
  | estimatorCalled (num_images : Nat) (pairwise_matches : List (MatchesInfo Mat R))
deriving DecidableEq

/-- Lines 79-215 of `main`.  The distributed stages are external: `vdlist` is
the result of `map_reduce_vertices` (one entry per image, of which only the
count is used here) and `edlist` the result of `map_reduce_edges`. -/
def main {Mat R VD : Type} (ops : MatOps Mat) (dflt : MatchesInfo Mat R)
    (parse_ok help_set : Bool) (img_dir graph_path : String) (work_megapix : ℚ)
    (vdlist : List VD) (edlist : List (edge_data Mat R)) : Outcome Mat R :=
  match startup parse_ok help_set img_dir graph_path work_megapix with
  | some code => Outcome.exited code
  | none =>
    let num_images := vdlist.length
    match compile_matches_loop ops dflt num_images edlist with
    | none => Outcome.undefined
    | some pairwise_matches => Outcome.estimatorCalled num_images pairwise_matches

/-! ## Median focal length -/

/-- Lines 262-266.  `focals` holds the focal lengths in camera order, each the
rational denoted by a `double`; `std::sort` is an ascending sort.  `toDouble`
rounds the exact result of the double-precision addition, `toFloat` is
`static_cast<float>` and also rounds the exact result of the single-precision
product with `0.5f` (which is exactly one half).  For an empty vector the `else`
branch reads `focals[size_t(0) - 1]`, outside the vector: `none`. -/
def median_focal (toDouble toFloat : ℚ → ℚ) (focals : List ℚ) : Option ℚ :=
  let sorted := focals.insertionSort (· ≤ ·)
  if sorted.length % 2 = 1 then
    match sorted[sorted.length / 2]? with
    | some m => some (toFloat m)
    | none => none
  else if sorted.length / 2 = 0 then none
  else
    match sorted[sorted.length / 2 - 1]?, sorted[sorted.length / 2]? with
    | some a, some b => some (toFloat (toFloat (toDouble (a + b)) * (1 / 2)))
    | _, _ => none

/-! ## Closed form of one cell (used by the proofs) -/

/-- The content of cell `i` after the loop, read off the loop body: the default
entry on the diagonal, otherwise the entry built from the record at `pair_idx`. -/
def cellOf {Mat R : Type} (ops : MatOps Mat) (dflt : MatchesInfo Mat R)
    (num_images : Nat) (edlist : List (edge_data Mat R)) (i : Nat) : MatchesInfo Mat R :=
  if i / num_images = i % num_images then dflt
  else
    match edlist[pair_idx i (i / num_images) (i % num_images) num_images]? with
    | some rec => buildEntry ops rec (i / num_images) (i % num_images)
    | none => dflt

/-- Loop invariant: cells below `k` hold their final value, the others are
still the default entry. -/
def LoopInv {Mat R : Type} (ops : MatOps Mat) (dflt : MatchesInfo Mat R) (N : Nat)
    (edlist : List (edge_data Mat R)) (k : Nat) (pm : List (MatchesInfo Mat R)) : Prop :=
  pm.length = edlist.length ∧
    ∀ j, j < edlist.length →
      pm[j]? = some (if j < k then cellOf ops dflt N edlist j else dflt)

/-! ## Concrete data for the worked instances

A transform is modelled by `Option Int`: `none` is the empty matrix and the
inverse of `some h` is `some (-h)`. -/

/-- Matrix operations of the worked instances. -/
def demoOps : MatOps (Option Int) :=
  { empty := fun m => m.isNone, inv := fun m => m.map (fun h => -h) }

/-- The default cell `MatchesInfo()` of the worked instances. -/
def demoDflt : MatchesInfo (Option Int) Int :=
  { src_img_idx := -1, dst_img_idx := -1, matches_ := [], inliers_mask := [],
    num_inliers := 0, H := none, confidence := 0 }

/-- A collected record with transform `some h`, one correspondence `(q, t)`,
`n` inliers and confidence `conf`. -/
def demoRec (h q t n conf : Int) : edge_data (Option Int) Int :=
  { matchinfo :=
      { src_img_idx := -1, dst_img_idx := -1,
        matches_ := [{ queryIdx := q, trainIdx := t, imgIdx := 0, distance := 7 }],
        inliers_mask := [1], num_inliers := n, H := some h, confidence := conf } }

/-- A rounding to single precision that is exact except at `2^24 + 1`, which
single precision cannot represent and rounds to `2^24`. -/
def demoToFloat (q : ℚ) : ℚ :=
  if q = 16777217 then 16777216 else q

/-- Four collected records, one per linear index of a 2 x 2 matrix. -/
def demoList4 : List (edge_data (Option Int) Int) :=
  [demoRec 10 1 2 5 3, demoRec 11 3 4 6 2, demoRec 12 5 6 7 1, demoRec 13 7 8 8 9]

/-- Three collected records. -/
def demoList3 : List (edge_data (Option Int) Int) :=
  [demoRec 10 1 2 5 3, demoRec 11 3 4 6 2, demoRec 12 5 6 7 1]

/-! ## Lemmas on the index arithmetic -/

theorem IND2SUB_RM_pos {ind ncols : Nat} (h : 0 < ncols) :
    IND2SUB_RM ind ncols = some (ind / ncols, ind % ncols) := by
  simp [IND2SUB_RM, Nat.pos_iff_ne_zero.mp h]

theorem SUB2IND_RM_le_of_le {r c N : Nat} (hN : 0 < N) (hcr : c ≤ r) :
    SUB2IND_RM c r N ≤ r * N + c := by
  unfold SUB2IND_RM
  obtain ⟨d, rfl⟩ := Nat.exists_eq_add_of_le hcr
  have hd : d ≤ d * N := Nat.le_mul_of_pos_right d hN
  have : (c + d) * N = c * N + d * N := Nat.add_mul c d N
  omega

theorem SUB2IND_RM_lt_of_lt {r c N : Nat} (hN : 2 ≤ N) (hcr : c < r) :
    SUB2IND_RM c r N < r * N + c := by
  unfold SUB2IND_RM
  obtain ⟨d, rfl⟩ := Nat.exists_eq_add_of_le (Nat.le_of_lt hcr)
  have hd : d * 2 ≤ d * N := Nat.mul_le_mul_left d hN
  have : (c + d) * N = c * N + d * N := Nat.add_mul c d N
  omega

theorem row_major_eq (i N : Nat) : i / N * N + i % N = i := by
  rw [Nat.mul_comm]; exact Nat.div_add_mod i N

theorem pair_idx_le {i N : Nat} (hN : 0 < N) :
    pair_idx i (i / N) (i % N) N ≤ i := by
  unfold pair_idx
  split
  · exact Nat.le_refl i
  · next h =>
    have h1 := SUB2IND_RM_le_of_le hN (Nat.le_of_not_lt h)
    have h2 := row_major_eq i N
    omega

theorem pair_idx_lt {i N : Nat} (hN : 2 ≤ N) (h : i % N < i / N) :
    pair_idx i (i / N) (i % N) N < i := by
  unfold pair_idx
  rw [if_neg (Nat.lt_asymm h)]
  have h1 := SUB2IND_RM_lt_of_lt hN h
  have h2 := row_major_eq i N
  omega

/-! ## Lemmas on the loop -/

theorem compileStep_eq {Mat R : Type} (ops : MatOps Mat) (dflt : MatchesInfo Mat R)
    {N : Nat} (edlist : List (edge_data Mat R)) (pm : List (MatchesInfo Mat R))
    {i : Nat} (hN : 0 < N) (hi : i < edlist.length) (hpm : pm.length = edlist.length) :
    compileStep ops N edlist pm i =
      some (if i / N = i % N then pm else pm.set i (cellOf ops dflt N edlist i)) := by
  have hp : pair_idx i (i / N) (i % N) N < edlist.length :=
    Nat.lt_of_le_of_lt (pair_idx_le hN) hi
  unfold compileStep cellOf
  rw [IND2SUB_RM_pos hN]
  by_cases hd : i / N = i % N
  · simp [hd]
  · simp only [hd, if_false]
    rw [List.getElem?_eq_getElem hp]
    simp [hpm, hi]

theorem cellOf_diag {Mat R : Type} (ops : MatOps Mat) (dflt : MatchesInfo Mat R)
    {N : Nat} (edlist : List (edge_data Mat R)) {i : Nat} (h : i / N = i % N) :
    cellOf ops dflt N edlist i = dflt := by
  simp [cellOf, h]

theorem LoopInv_step {Mat R : Type} (ops : MatOps Mat) (dflt : MatchesInfo Mat R)
    {N : Nat} (edlist : List (edge_data Mat R)) {i : Nat} {pm : List (MatchesInfo Mat R)}
    (hN : 0 < N) (hi : i < edlist.length) (inv : LoopInv ops dflt N edlist i pm) :
    ∃ pm1, compileStep ops N edlist pm i = some pm1 ∧
      LoopInv ops dflt N edlist (i + 1) pm1 := by
  obtain ⟨hlen, hcells⟩ := inv
  refine ⟨_, compileStep_eq ops dflt edlist pm hN hi hlen, ?_⟩
  by_cases hd : i / N = i % N
  · rw [if_pos hd]
    refine ⟨hlen, fun j hj => ?_⟩
    rw [hcells j hj]
    by_cases hji : j = i
    · subst hji
      simp [cellOf_diag ops dflt edlist hd]
    · have : (j < i + 1) = (j < i) := by
        apply propext; omega
      simp only [this]
  · rw [if_neg hd]
    refine ⟨by simpa using hlen, fun j hj => ?_⟩
    by_cases hji : j = i
    · subst hji
      rw [List.getElem?_set_self (by omega)]
      simp
    · rw [List.getElem?_set_ne (fun h => hji h.symm), hcells j hj]
      have : (j < i + 1) = (j < i) := by
        apply propext; omega
      simp only [this]

theorem compileLoop_inv {Mat R : Type} (ops : MatOps Mat) (dflt : MatchesInfo Mat R)
    {N : Nat} (edlist : List (edge_data Mat R)) (hN : 0 < N) :
    ∀ (todo i : Nat) (pm : List (MatchesInfo Mat R)), i + todo = edlist.length →
      LoopInv ops dflt N edlist i pm →
      ∃ out, compileLoop ops N edlist todo i pm = some out ∧
        LoopInv ops dflt N edlist edlist.length out := by
  intro todo
  induction todo with
  | zero =>
    intro i pm hi inv
    have : i = edlist.length := by omega
    subst this
    exact ⟨pm, rfl, inv⟩
  | succ todo ih =>
    intro i pm hi inv
    obtain ⟨pm1, hstep, inv1⟩ := LoopInv_step ops dflt edlist hN (by omega) inv
    obtain ⟨out, hout, invL⟩ := ih (i + 1) pm1 (by omega) inv1
    refine ⟨out, ?_, invL⟩
    simp only [compileLoop, hstep]
    exact hout

/-- For at least one image the loop terminates normally, the matrix has one
cell per collected record and every cell holds its closed form. -/
theorem compile_matches_loop_cells {Mat R : Type} (ops : MatOps Mat)
    (dflt : MatchesInfo Mat R) {N : Nat} (edlist : List (edge_data Mat R)) (hN : 0 < N) :
    ∃ out, compile_matches_loop ops dflt N edlist = some out ∧
      out.length = edlist.length ∧
      ∀ j, j < edlist.length → out[j]? = some (cellOf ops dflt N edlist j) := by
  have inv0 : LoopInv ops dflt N edlist 0 (List.replicate edlist.length dflt) := by
    refine ⟨by simp, fun j hj => ?_⟩
    simp [List.getElem?_replicate, hj]
  obtain ⟨out, hout, hlen, hcells⟩ :=
    compileLoop_inv ops dflt edlist hN edlist.length 0 _ (by omega) inv0
  refine ⟨out, hout, hlen, fun j hj => ?_⟩
  rw [hcells j hj, if_pos hj]

theorem div_mod_row_major {r c N : Nat} (hc : c < N) :
    (r * N + c) / N = r ∧ (r * N + c) % N = c := by
  have hN : 0 < N := Nat.lt_of_le_of_lt (Nat.zero_le c) hc
  constructor
  · rw [Nat.mul_comm, Nat.mul_add_div hN, Nat.div_eq_of_lt hc, Nat.add_zero]
  · rw [Nat.mul_comm, Nat.mul_add_mod, Nat.mod_eq_of_lt hc]

theorem row_major_lt {r c N : Nat} (hr : r < N) (hc : c < N) : r * N + c < N * N := by
  have h1 : (r + 1) * N ≤ N * N := Nat.mul_le_mul_right N hr
  have h2 : (r + 1) * N = r * N + N := Nat.succ_mul r N
  omega

/-- Above the diagonal the cell is the record at the same index with the two
image indices set. -/
theorem cellOf_upper {Mat R : Type} (ops : MatOps Mat) (dflt : MatchesInfo Mat R)
    {N : Nat} (edlist : List (edge_data Mat R)) {i : Nat}
    (hi : i < edlist.length) (h : i / N < i % N) :
    ∃ rec, edlist[i]? = some rec ∧
      cellOf ops dflt N edlist i =
        { rec.matchinfo with
          src_img_idx := ((i / N : Nat) : Int), dst_img_idx := ((i % N : Nat) : Int) } := by
  refine ⟨edlist[i], List.getElem?_eq_getElem hi, ?_⟩
  unfold cellOf pair_idx buildEntry
  rw [if_neg (Nat.ne_of_lt h), if_pos h, List.getElem?_eq_getElem hi]
  simp [Nat.lt_asymm h]

/-- Below the diagonal the cell is made from the record at the transposed
index: indices set, transform inverted when non-empty, correspondences swapped. -/
theorem cellOf_lower {Mat R : Type} (ops : MatOps Mat) (dflt : MatchesInfo Mat R)
    {N : Nat} (edlist : List (edge_data Mat R)) {i : Nat}
    (hN : 0 < N) (hi : i < edlist.length) (h : i % N < i / N) :
    ∃ rec, edlist[i % N * N + i / N]? = some rec ∧
      cellOf ops dflt N edlist i =
        { src_img_idx := ((i / N : Nat) : Int)
          dst_img_idx := ((i % N : Nat) : Int)
          matches_ := rec.matchinfo.matches_.map swapIdx
          inliers_mask := rec.matchinfo.inliers_mask
          num_inliers := rec.matchinfo.num_inliers
          H := if ops.empty rec.matchinfo.H then rec.matchinfo.H
               else ops.inv rec.matchinfo.H
          confidence := rec.matchinfo.confidence } := by
  have hp : pair_idx i (i / N) (i % N) N = i % N * N + i / N := by
    simp [pair_idx, SUB2IND_RM, Nat.lt_asymm h]
  have hlt : i % N * N + i / N < edlist.length := by
    have := pair_idx_le (i := i) hN
    omega
  refine ⟨edlist[i % N * N + i / N], List.getElem?_eq_getElem hlt, ?_⟩
  unfold cellOf buildEntry swapInvert
  rw [if_neg (Nat.ne_of_gt h), hp, List.getElem?_eq_getElem hlt]
  simp [h]

theorem buildEntry_src {Mat R : Type} (ops : MatOps Mat) (rec : edge_data Mat R)
    (r c : Nat) : (buildEntry ops rec r c).src_img_idx = (r : Int) := by
  unfold buildEntry swapInvert
  split <;> rfl

theorem buildEntry_dst {Mat R : Type} (ops : MatOps Mat) (rec : edge_data Mat R)
    (r c : Nat) : (buildEntry ops rec r c).dst_img_idx = (c : Int) := by
  unfold buildEntry swapInvert
  split <;> rfl

/-- Off the diagonal the cell is built from a record of the collected list. -/
theorem cellOf_offdiag {Mat R : Type} (ops : MatOps Mat) (dflt : MatchesInfo Mat R)
    {N : Nat} (edlist : List (edge_data Mat R)) {i : Nat}
    (hN : 0 < N) (hi : i < edlist.length) (h : i / N ≠ i % N) :
    ∃ rec, rec ∈ edlist ∧ edlist[pair_idx i (i / N) (i % N) N]? = some rec ∧
      cellOf ops dflt N edlist i = buildEntry ops rec (i / N) (i % N) := by
  have hp : pair_idx i (i / N) (i % N) N < edlist.length :=
    Nat.lt_of_le_of_lt (pair_idx_le hN) hi
  refine ⟨edlist[pair_idx i (i / N) (i % N) N], List.getElem_mem _,
    List.getElem?_eq_getElem hp, ?_⟩
  unfold cellOf
  rw [if_neg h, List.getElem?_eq_getElem hp]

theorem compile_matches_loop_nil {Mat R : Type} (ops : MatOps Mat)
    (dflt : MatchesInfo Mat R) (N : Nat) :
    compile_matches_loop ops dflt N ([] : List (edge_data Mat R)) = some [] := rfl

theorem compile_matches_loop_zero_cons {Mat R : Type} (ops : MatOps Mat)
    (dflt : MatchesInfo Mat R) (e : edge_data Mat R) (es : List (edge_data Mat R)) :
    compile_matches_loop ops dflt 0 (e :: es) = none := by
  simp [compile_matches_loop, compileLoop, compileStep, IND2SUB_RM]

/-- The loop terminates normally exactly when there is an image or nothing was
collected. -/
theorem compile_matches_loop_ok {Mat R : Type} (ops : MatOps Mat)
    (dflt : MatchesInfo Mat R) {N : Nat} (edlist : List (edge_data Mat R))
    (h : 0 < N ∨ edlist = []) :
    ∃ out, compile_matches_loop ops dflt N edlist = some out ∧
      out.length = edlist.length ∧
      ∀ j, j < edlist.length → out[j]? = some (cellOf ops dflt N edlist j) := by
  rcases h with h | h
  · exact compile_matches_loop_cells ops dflt edlist h
  · subst h
    exact ⟨[], rfl, rfl, fun j hj => absurd hj (Nat.not_lt_zero j)⟩

/-- The diagonal of an `N x N` row-major matrix has `N` linear indices. -/
theorem diag_count (N : Nat) :
    ((Finset.range (N * N)).filter (fun i => i / N = i % N)).card = N := by
  rcases Nat.eq_zero_or_pos N with h0 | hN
  · subst h0; simp
  have himg : (Finset.range (N * N)).filter (fun i => i / N = i % N) =
      (Finset.range N).image (fun r => r * N + r) := by
    ext i
    simp only [Finset.mem_filter, Finset.mem_range, Finset.mem_image]
    constructor
    · rintro ⟨hi, hd⟩
      refine ⟨i / N, Nat.div_lt_of_lt_mul hi, ?_⟩
      have := Nat.div_add_mod i N
      rw [Nat.mul_comm] at this
      nth_rewrite 2 [hd]
      exact this
    · rintro ⟨r, hr, rfl⟩
      obtain ⟨d, m⟩ := div_mod_row_major (r := r) hr
      refine ⟨?_, by rw [d, m]⟩
      have h1 : (r + 1) * N ≤ N * N := Nat.mul_le_mul_right N hr
      have h2 : (r + 1) * N = r * N + N := Nat.succ_mul r N
      omega
  rw [himg, Finset.card_image_of_injective, Finset.card_range]
  intro a b hab
  simp only at hab
  have h : a * (N + 1) = b * (N + 1) := by
    rw [Nat.mul_add, Nat.mul_add, Nat.mul_one, Nat.mul_one]; exact hab
  exact Nat.eq_of_mul_eq_mul_right (Nat.succ_pos N) h

/-- An `N x N` row-major matrix has `N * (N - 1)` off-diagonal linear indices. -/
theorem offdiag_count (N : Nat) :
    ((Finset.range (N * N)).filter (fun i => i / N ≠ i % N)).card = N * (N - 1) := by
  have h := Finset.filter_card_add_filter_neg_card_eq_card
    (s := Finset.range (N * N)) (fun i => i / N = i % N)
  rw [diag_count, Finset.card_range] at h
  have h3 : N * (N - 1) = N * N - N := by
    rw [Nat.mul_sub, Nat.mul_one]
  rw [h3]
  have : ((Finset.range (N * N)).filter (fun i => ¬ (i / N = i % N))).card =
    ((Finset.range (N * N)).filter (fun i => i / N ≠ i % N)).card := rfl
  omega

/-- Valid options of the worked instances pass the start-up checks. -/
theorem startup_demo : startup true false "imgs" "graph" (3 / 5) = none := by
  have h1 : ("imgs" : String).isEmpty = false := by decide
  have h2 : ("graph" : String).isEmpty = false := by decide
  have h3 : ¬ ((3 / 5 : ℚ) > 10) := by norm_num
  simp [startup, h1, h2, h3]

theorem startup_parsed (help_set : Bool) (img_dir graph_path : String)
    (work_megapix : ℚ) :
    startup true help_set img_dir graph_path work_megapix =
      if img_dir = "" ∨ graph_path = "" ∨ work_megapix > 10 then some EXIT_FAILURE
      else none := by
  unfold startup
  by_cases h1 : img_dir = ""
  · simp [h1, String.isEmpty]
  · by_cases h2 : graph_path = ""
    · simp [h2, String.isEmpty]
    · have e1 : img_dir.isEmpty = false := by
        rw [Bool.eq_false_iff]; exact fun h => h1 ((String.isEmpty_iff _).mp h)
      have e2 : graph_path.isEmpty = false := by
        rw [Bool.eq_false_iff]; exact fun h => h2 ((String.isEmpty_iff _).mp h)
      simp [h1, h2, e1, e2]

/-- With an odd number of focal lengths the result is the rounded middle
element of the sorted vector. -/
theorem median_focal_odd (toDouble toFloat : ℚ → ℚ) (focals : List ℚ)
    (hodd : focals.length % 2 = 1) :
    ∃ m, (focals.insertionSort (· ≤ ·))[focals.length / 2]? = some m ∧
      median_focal toDouble toFloat focals = some (toFloat m) := by
  have hlen : (focals.insertionSort (· ≤ ·)).length = focals.length :=
    List.length_insertionSort _ focals
  have hmid : focals.length / 2 < (focals.insertionSort (· ≤ ·)).length := by omega
  refine ⟨_, List.getElem?_eq_getElem hmid, ?_⟩
  unfold median_focal
  simp only [hlen, hodd, if_true]
  rw [List.getElem?_eq_getElem hmid]

/-- With a positive even number of focal lengths the result is the rounded half
of the rounded sum of the two central elements of the sorted vector. -/
theorem median_focal_even (toDouble toFloat : ℚ → ℚ) (focals : List ℚ)
    (hne : focals ≠ []) (heven : focals.length % 2 = 0) :
    ∃ a b, (focals.insertionSort (· ≤ ·))[focals.length / 2 - 1]? = some a ∧
      (focals.insertionSort (· ≤ ·))[focals.length / 2]? = some b ∧
      median_focal toDouble toFloat focals =
        some (toFloat (toFloat (toDouble (a + b)) * (1 / 2))) := by
  have hpos : 0 < focals.length := List.length_pos.mpr hne
  have hlen : (focals.insertionSort (· ≤ ·)).length = focals.length :=
    List.length_insertionSort _ focals
  have hhi : focals.length / 2 < (focals.insertionSort (· ≤ ·)).length := by omega
  have hlo : focals.length / 2 - 1 < (focals.insertionSort (· ≤ ·)).length := by omega
  have hhalf : focals.length / 2 ≠ 0 := by omega
  have hnodd : ¬ focals.length % 2 = 1 := by omega
  refine ⟨_, _, List.getElem?_eq_getElem hlo, List.getElem?_eq_getElem hhi, ?_⟩
  unfold median_focal
  simp only [hlen, hnodd, hhalf, if_false]
  rw [List.getElem?_eq_getElem hlo, List.getElem?_eq_getElem hhi]

theorem median_focal_three (toDouble toFloat : ℚ → ℚ) :
    median_focal toDouble toFloat [10, 20, 30] = some (toFloat 20) := by
  have hs : ([10, 20, 30] : List ℚ).insertionSort (· ≤ ·) = [10, 20, 30] := by
    decide
  unfold median_focal
  rw [hs]
  rfl

theorem median_focal_four (toDouble toFloat : ℚ → ℚ) :
    median_focal toDouble toFloat [10, 20, 30, 40] =
      some (toFloat (toFloat (toDouble 50) * (1 / 2))) := by
  have hs : ([10, 20, 30, 40] : List ℚ).insertionSort (· ≤ ·) = [10, 20, 30, 40] := by
    decide
  unfold median_focal
  rw [hs]
  simp only [List.length_cons, List.length_nil]
  norm_num

/-- The rounding of `static_cast<float>` is visible in the model: a single focal
length of `2^24 + 1` yields `2^24`. -/
theorem median_focal_rounds :
    median_focal id demoToFloat [16777217] = some 16777216 := by
  decide

/-! ## The claims -/

/-- C1 (symmetry of the assembled matrix).  For at least two images, a collected
list with one record per linear index of the `N x N` matrix and `r < c < N`, the
loop returns a matrix whose cells `(r,c)` and `(c,r)` both exist; the transform
of `(c,r)` is the inverse of that of `(r,c)` whenever the latter is non-empty,
and the correspondences of `(c,r)` are those of `(r,c)` with `queryIdx` and
`trainIdx` exchanged, in the same order and number. -/
theorem assembled_matrix_symmetric {Mat R : Type} (ops : MatOps Mat)
    (dflt : MatchesInfo Mat R) (N : Nat) (edlist : List (edge_data Mat R)) (r c : Nat)
    (hN : 2 ≤ N) (hlen : edlist.length = N * N) (hrc : r < c) (hc : c < N) :
    ∃ out e_rc e_cr,
      compile_matches_loop ops dflt N edlist = some out ∧
      out[r * N + c]? = some e_rc ∧ out[c * N + r]? = some e_cr ∧
      (ops.empty e_rc.H = false → e_cr.H = ops.inv e_rc.H) ∧
      e_cr.matches_.length = e_rc.matches_.length ∧
      ∀ (k : Nat) (m : DMatch R), e_rc.matches_[k]? = some m →
        e_cr.matches_[k]? =
          some { m with queryIdx := m.trainIdx, trainIdx := m.queryIdx } := by
  have hN0 : 0 < N := by omega
  have hr : r < N := Nat.lt_trans hrc hc
  obtain ⟨out, hout, _, hcells⟩ := compile_matches_loop_cells ops dflt edlist hN0
  have hi1 : r * N + c < edlist.length := hlen ▸ row_major_lt hr hc
  have hi2 : c * N + r < edlist.length := hlen ▸ row_major_lt hc hr
  obtain ⟨d1, m1⟩ := div_mod_row_major (r := r) hc
  obtain ⟨d2, m2⟩ := div_mod_row_major (r := c) hr
  obtain ⟨rec1, hrec1, hcell1⟩ :=
    cellOf_upper ops dflt (N := N) edlist hi1 (by rw [d1, m1]; exact hrc)
  obtain ⟨rec2, hrec2, hcell2⟩ :=
    cellOf_lower ops dflt (N := N) edlist hN0 hi2 (by rw [d2, m2]; exact hrc)
  rw [d2, m2] at hrec2
  rw [hrec1] at hrec2
  cases hrec2
  refine ⟨out, _, _, hout, hcells _ hi1, hcells _ hi2, ?_, ?_, ?_⟩
  · intro hne
    rw [hcell1] at hne
    rw [hcell1, hcell2]
    simp only at hne ⊢
    rw [hne]
    rfl
  · rw [hcell1, hcell2]
    simp
  · intro k m hk
    rw [hcell1] at hk
    rw [hcell2]
    simp only [List.getElem?_map] at hk ⊢
    rw [hk]
    rfl

/-- Worked instance of C1: two images, four collected records, cells (0,1) and
(1,0). -/
theorem assembled_matrix_symmetric_witness :
    ∃ out e_rc e_cr,
      compile_matches_loop demoOps demoDflt 2 demoList4 = some out ∧
      out[0 * 2 + 1]? = some e_rc ∧ out[1 * 2 + 0]? = some e_cr ∧
      (demoOps.empty e_rc.H = false → e_cr.H = demoOps.inv e_rc.H) ∧
      e_cr.matches_.length = e_rc.matches_.length ∧
      ∀ (k : Nat) (m : DMatch Int), e_rc.matches_[k]? = some m →
        e_cr.matches_[k]? =
          some { m with queryIdx := m.trainIdx, trainIdx := m.queryIdx } :=
  assembled_matrix_symmetric demoOps demoDflt 2 demoList4 0 1
    (by decide) (by decide) (by decide) (by decide)

/-- C2 (derived, reverse-direction entry).  For at least one image and a loop
index `i` whose row `r = i / N` exceeds its column `c = i % N`, the loop returns
a matrix whose cell `i` is made from the record collected at the linear index
`c * N + r` of `(c, r)`: source index `r`, destination index `c`, the transform
inverted unless it is empty (an empty transform is kept), every correspondence
with its two endpoint indices exchanged, inlier mask, inlier count and
confidence copied. -/
theorem derived_entry {Mat R : Type} (ops : MatOps Mat) (dflt : MatchesInfo Mat R)
    (N : Nat) (edlist : List (edge_data Mat R)) (i : Nat)
    (hN : 0 < N) (hi : i < edlist.length) (hrc : i % N < i / N) :
    ∃ out rec,
      compile_matches_loop ops dflt N edlist = some out ∧
      edlist[i % N * N + i / N]? = some rec ∧
      out[i]? = some
        { src_img_idx := ((i / N : Nat) : Int)
          dst_img_idx := ((i % N : Nat) : Int)
          matches_ := rec.matchinfo.matches_.map
            (fun m => { m with queryIdx := m.trainIdx, trainIdx := m.queryIdx })
          inliers_mask := rec.matchinfo.inliers_mask
          num_inliers := rec.matchinfo.num_inliers
          H := if ops.empty rec.matchinfo.H then rec.matchinfo.H
               else ops.inv rec.matchinfo.H
          confidence := rec.matchinfo.confidence } := by
  obtain ⟨out, hout, _, hcells⟩ := compile_matches_loop_cells ops dflt edlist hN
  obtain ⟨rec, hrec, hcell⟩ := cellOf_lower ops dflt edlist hN hi hrc
  refine ⟨out, rec, hout, hrec, ?_⟩
  rw [hcells i hi, hcell]
  rfl

/-- Worked instance of C2: two images, cell 2 = (1,0) is made from record 1. -/
theorem derived_entry_witness :
    ∃ out rec,
      compile_matches_loop demoOps demoDflt 2 demoList4 = some out ∧
      demoList4[2 % 2 * 2 + 2 / 2]? = some rec ∧
      out[2]? = some
        { src_img_idx := ((2 / 2 : Nat) : Int)
          dst_img_idx := ((2 % 2 : Nat) : Int)
          matches_ := rec.matchinfo.matches_.map
            (fun m => { m with queryIdx := m.trainIdx, trainIdx := m.queryIdx })
          inliers_mask := rec.matchinfo.inliers_mask
          num_inliers := rec.matchinfo.num_inliers
          H := if demoOps.empty rec.matchinfo.H then rec.matchinfo.H
               else demoOps.inv rec.matchinfo.H
          confidence := rec.matchinfo.confidence } :=
  derived_entry demoOps demoDflt 2 demoList4 2 (by decide) (by decide) (by decide)

/-- C3 (direct, canonical-direction entry).  For at least one image and a loop
index `i` whose row `r = i / N` is below its column `c = i % N`, the loop
returns a matrix whose cell `i` is the record collected at the same index `i`
with source index `r` and destination index `c`; transform, correspondences,
inlier mask, inlier count and confidence are those of the record. -/
theorem direct_entry {Mat R : Type} (ops : MatOps Mat) (dflt : MatchesInfo Mat R)
    (N : Nat) (edlist : List (edge_data Mat R)) (i : Nat)
    (hN : 0 < N) (hi : i < edlist.length) (hrc : i / N < i % N) :
    ∃ out rec,
      compile_matches_loop ops dflt N edlist = some out ∧
      edlist[i]? = some rec ∧
      out[i]? = some
        { src_img_idx := ((i / N : Nat) : Int)
          dst_img_idx := ((i % N : Nat) : Int)
          matches_ := rec.matchinfo.matches_
          inliers_mask := rec.matchinfo.inliers_mask
          num_inliers := rec.matchinfo.num_inliers
          H := rec.matchinfo.H
          confidence := rec.matchinfo.confidence } := by
  obtain ⟨out, hout, _, hcells⟩ := compile_matches_loop_cells ops dflt edlist hN
  obtain ⟨rec, hrec, hcell⟩ := cellOf_upper ops dflt (N := N) edlist hi hrc
  refine ⟨out, rec, hout, hrec, ?_⟩
  rw [hcells i hi, hcell]

/-- Worked instance of C3: two images, cell 1 = (0,1) is record 1. -/
theorem direct_entry_witness :
    ∃ out rec,
      compile_matches_loop demoOps demoDflt 2 demoList4 = some out ∧
      demoList4[1]? = some rec ∧
      out[1]? = some
        { src_img_idx := ((1 / 2 : Nat) : Int)
          dst_img_idx := ((1 % 2 : Nat) : Int)
          matches_ := rec.matchinfo.matches_
          inliers_mask := rec.matchinfo.inliers_mask
          num_inliers := rec.matchinfo.num_inliers
          H := rec.matchinfo.H
          confidence := rec.matchinfo.confidence } :=
  direct_entry demoOps demoDflt 2 demoList4 1 (by decide) (by decide) (by decide)

/-- C8 (diagonal cells).  For at least one image and a loop index `i` on the
diagonal (`i / N = i % N`), the loop returns a matrix whose cell `i` is the
default entry it was allocated with, whatever the record collected at `i`
holds: nothing is copied and no image index is assigned. -/
theorem diagonal_cell_default {Mat R : Type} (ops : MatOps Mat)
    (dflt : MatchesInfo Mat R) (N : Nat) (edlist : List (edge_data Mat R)) (i : Nat)
    (hN : 1 ≤ N) (hi : i < edlist.length) (hrc : i / N = i % N) :
    ∃ out, compile_matches_loop ops dflt N edlist = some out ∧ out[i]? = some dflt := by
  obtain ⟨out, hout, _, hcells⟩ := compile_matches_loop_cells ops dflt edlist hN
  refine ⟨out, hout, ?_⟩
  rw [hcells i hi, cellOf_diag ops dflt edlist hrc]

/-- Worked instance of C8: two images, cell 3 = (1,1) stays the default entry
although record 3 holds data. -/
theorem diagonal_cell_default_witness :
    demoList4[3]? = some (demoRec 13 7 8 8 9) ∧
    ∃ out, compile_matches_loop demoOps demoDflt 2 demoList4 = some out ∧
      out[3]? = some demoDflt :=
  ⟨by decide,
    diagonal_cell_default demoOps demoDflt 2 demoList4 3 (by decide) (by decide) (by decide)⟩

/-- C4, as stated, fails: with two images and three collected records the
assembled matrix has three cells, not `2 * 2`. -/
theorem matrix_size_counterexample :
    (compile_matches_loop demoOps demoDflt 2 demoList3).map List.length = some 3 ∧
      (3 : Nat) ≠ 2 * 2 := by
  decide

/-- C4, amended.  Whenever the index arithmetic is defined (at least one image,
or nothing collected) the loop returns a matrix with exactly as many cells as
records were collected, and it visits every index below that number: each
off-diagonal one is populated from a collected record with source index `r` and
destination index `c`.  When `N * N` records were collected the matrix has
`N * N` cells, `N * (N - 1)` of them off the diagonal, and every off-diagonal
cell `(r, c)` is populated so. -/
theorem matrix_size_is_record_count {Mat R : Type} (ops : MatOps Mat)
    (dflt : MatchesInfo Mat R) (N : Nat) (edlist : List (edge_data Mat R))
    (h : 0 < N ∨ edlist = []) :
    ∃ out,
      compile_matches_loop ops dflt N edlist = some out ∧
      out.length = edlist.length ∧
      (∀ i, i < edlist.length → i / N ≠ i % N →
        ∃ rec, rec ∈ edlist ∧ out[i]? = some (buildEntry ops rec (i / N) (i % N))) ∧
      (edlist.length = N * N →
        out.length = N * N ∧
        ((Finset.range out.length).filter (fun i => i / N ≠ i % N)).card = N * (N - 1) ∧
        ∀ r c, r < N → c < N → r ≠ c →
          ∃ rec e, rec ∈ edlist ∧ out[r * N + c]? = some e ∧
            e = buildEntry ops rec r c ∧
            e.src_img_idx = (r : Int) ∧ e.dst_img_idx = (c : Int)) := by
  obtain ⟨out, hout, hlen, hcells⟩ := compile_matches_loop_ok ops dflt edlist h
  have hoff : ∀ i, i < edlist.length → i / N ≠ i % N →
      ∃ rec, rec ∈ edlist ∧ out[i]? = some (buildEntry ops rec (i / N) (i % N)) := by
    intro i hi hd
    have hN : 0 < N := by
      rcases h with h | h
      · exact h
      · subst h
        exact absurd hi (Nat.not_lt_zero i)
    obtain ⟨rec, hmem, _, hcell⟩ := cellOf_offdiag ops dflt edlist hN hi hd
    exact ⟨rec, hmem, by rw [hcells i hi, hcell]⟩
  refine ⟨out, hout, hlen, hoff, fun hsq => ⟨hlen.trans hsq, ?_, ?_⟩⟩
  · rw [hlen.trans hsq]
    exact offdiag_count N
  intro r c hr hc hne
  obtain ⟨d, m⟩ := div_mod_row_major (r := r) hc
  have hi : r * N + c < edlist.length := hsq ▸ row_major_lt hr hc
  obtain ⟨rec, hmem, hcell⟩ := hoff (r * N + c) hi (by rw [d, m]; exact hne)
  rw [d, m] at hcell
  exact ⟨rec, _, hmem, hcell, rfl, buildEntry_src ops rec r c, buildEntry_dst ops rec r c⟩

/-- Worked instance of the amended C4: two images, four collected records. -/
theorem matrix_size_is_record_count_witness :
    ∃ out,
      compile_matches_loop demoOps demoDflt 2 demoList4 = some out ∧
      out.length = demoList4.length ∧
      (∀ i, i < demoList4.length → i / 2 ≠ i % 2 →
        ∃ rec, rec ∈ demoList4 ∧
          out[i]? = some (buildEntry demoOps rec (i / 2) (i % 2))) ∧
      (demoList4.length = 2 * 2 →
        out.length = 2 * 2 ∧
        ((Finset.range out.length).filter (fun i => i / 2 ≠ i % 2)).card = 2 * (2 - 1) ∧
        ∀ r c, r < 2 → c < 2 → r ≠ c →
          ∃ rec e, rec ∈ demoList4 ∧ out[r * 2 + c]? = some e ∧
            e = buildEntry demoOps rec r c ∧
            e.src_img_idx = (r : Int) ∧ e.dst_img_idx = (c : Int)) :=
  matrix_size_is_record_count demoOps demoDflt 2 demoList4 (Or.inl (by decide))

/-- C5, as stated, fails: with a single image, valid options and one collected
record the run is not aborted; the estimator is called with one image and a
matrix of one default cell. -/
theorem few_images_counterexample :
    main demoOps demoDflt true false "imgs" "graph" (3 / 5) [()]
        [demoRec 10 1 2 5 3] =
      Outcome.estimatorCalled 1 [demoDflt] := by
  unfold main
  rw [startup_demo]
  decide

/-- C5, amended.  When start-up validation passes, fewer than two images were
compiled and the collected list has `N * N` records, the assembled matrix has no
populated cell (no cell at all for `N = 0`, one default cell for `N = 1`) and
the run is not aborted: the estimator is called with `N` images and that
matrix. -/
theorem few_images_reach_estimator {Mat R VD : Type} (ops : MatOps Mat)
    (dflt : MatchesInfo Mat R) (help_set : Bool) (img_dir graph_path : String)
    (work_megapix : ℚ) (vdlist : List VD) (edlist : List (edge_data Mat R))
    (hstart : startup true help_set img_dir graph_path work_megapix = none)
    (hN : vdlist.length < 2)
    (hlen : edlist.length = vdlist.length * vdlist.length) :
    main ops dflt true help_set img_dir graph_path work_megapix vdlist edlist =
      Outcome.estimatorCalled vdlist.length
        (List.replicate (vdlist.length * vdlist.length) dflt) := by
  unfold main
  rw [hstart]
  have h01 : vdlist.length = 0 ∨ vdlist.length = 1 := by omega
  rcases h01 with h0 | h1
  · rw [h0] at hlen ⊢
    have : edlist = [] := List.length_eq_zero.mp (by simpa using hlen)
    subst this
    rfl
  · rw [h1] at hlen ⊢
    obtain ⟨e, rfl⟩ := List.length_eq_one.mp (by simpa using hlen)
    simp [compile_matches_loop, compileLoop, compileStep, IND2SUB_RM]

/-- Worked instance of the amended C5: one image, one collected record. -/
theorem few_images_reach_estimator_witness :
    main demoOps demoDflt true false "imgs" "graph" (3 / 5) [()]
        [demoRec 10 1 2 5 3] =
      Outcome.estimatorCalled [()].length
        (List.replicate ([()].length * [()].length) demoDflt) :=
  few_images_reach_estimator demoOps demoDflt false "imgs" "graph" (3 / 5) [()]
    [demoRec 10 1 2 5 3] startup_demo (by decide) (by decide)

/-- C7, as stated, fails: when option parsing itself fails (and no help was
asked for) the run returns the failure code before graph construction although
both paths are non-empty and the budget is below 10. -/
theorem startup_validation_counterexample :
    main demoOps demoDflt false false "imgs" "graph" (3 / 5) [(), ()] demoList4 =
        Outcome.exited EXIT_FAILURE ∧
      ¬ (("imgs" : String) = "" ∨ ("graph" : String) = "" ∨ (3 / 5 : ℚ) > 10) := by
  refine ⟨by decide, ?_⟩
  have h1 : ("imgs" : String) ≠ "" := by decide
  have h2 : ("graph" : String) ≠ "" := by decide
  have h3 : ¬ ((3 / 5 : ℚ) > 10) := by norm_num
  simp [h1, h2, h3]

/-- C7, amended.  Once option parsing has succeeded, the run returns the failure
code before graph construction if and only if the image directory is empty, or
the adjacency path is empty, or `work_megapix` exceeds 10; otherwise start-up
passes and graph construction is reached.  In particular a budget of 15 is
rejected whatever the paths are. -/
theorem startup_validation {Mat R VD : Type} (ops : MatOps Mat)
    (dflt : MatchesInfo Mat R) (help_set : Bool) (img_dir graph_path : String)
    (work_megapix : ℚ) (vdlist : List VD) (edlist : List (edge_data Mat R)) :
    (main ops dflt true help_set img_dir graph_path work_megapix vdlist edlist =
        Outcome.exited EXIT_FAILURE ↔
      (img_dir = "" ∨ graph_path = "" ∨ work_megapix > 10)) ∧
    (startup true help_set img_dir graph_path work_megapix = none ↔
      (img_dir ≠ "" ∧ graph_path ≠ "" ∧ work_megapix ≤ 10)) ∧
    main ops dflt true help_set img_dir graph_path 15 vdlist edlist =
      Outcome.exited EXIT_FAILURE := by
  refine ⟨?_, ?_, ?_⟩
  · unfold main
    rw [startup_parsed]
    by_cases h : img_dir = "" ∨ graph_path = "" ∨ work_megapix > 10
    · simp [h]
    · simp only [h, if_false, iff_false]
      cases compile_matches_loop ops dflt vdlist.length edlist <;> simp
  · rw [startup_parsed]
    by_cases h : img_dir = "" ∨ graph_path = "" ∨ work_megapix > 10
    · simp only [h, if_true]
      constructor
      · intro h0; cases h0
      · rintro ⟨h1, h2, h3⟩
        rcases h with h | h | h
        · exact absurd h h1
        · exact absurd h h2
        · exact absurd h3 (not_le.mpr h)
    · simp only [h, if_false, true_iff]
      push_neg at h
      exact h
  · unfold main
    rw [startup_parsed]
    have : (15 : ℚ) > 10 := by norm_num
    simp [this]

/-- Worked instance of the amended C7. -/
theorem startup_validation_witness :
    (main demoOps demoDflt true false "imgs" "graph" (3 / 5) [(), ()] demoList4 =
        Outcome.exited EXIT_FAILURE ↔
      (("imgs" : String) = "" ∨ ("graph" : String) = "" ∨ (3 / 5 : ℚ) > 10)) ∧
    (startup true false "imgs" "graph" (3 / 5) = none ↔
      (("imgs" : String) ≠ "" ∧ ("graph" : String) ≠ "" ∧ (3 / 5 : ℚ) ≤ 10)) ∧
    main demoOps demoDflt true false "imgs" "graph" 15 [(), ()] demoList4 =
      Outcome.exited EXIT_FAILURE :=
  startup_validation demoOps demoDflt false "imgs" "graph" (3 / 5) [(), ()] demoList4

/-- C6 (median focal length).  For a non-empty list of focal lengths, given in
any order, the computation returns a value.  With `sorted` the ascending
rearrangement of the list, the value is the middle element of `sorted`, cast to
single precision, for an odd count; for an even count it is the sum of the two
central elements of `sorted`, cast to single precision and halved.  Over exact
arithmetic, that is whenever the rounding steps leave the values concerned
unchanged, the value is the middle element and the arithmetic mean of the two
central elements respectively; so `[10, 20, 30]` gives 20 and
`[10, 20, 30, 40]` gives 25. -/
theorem median_focal_spec (toDouble toFloat : ℚ → ℚ) (focals : List ℚ)
    (hne : focals ≠ []) :
    ∃ sorted : List ℚ,
      List.Sorted (· ≤ ·) sorted ∧ List.Perm sorted focals ∧
      (focals.length % 2 = 1 →
        ∃ m, sorted[focals.length / 2]? = some m ∧
          median_focal toDouble toFloat focals = some (toFloat m) ∧
          (toFloat m = m → median_focal toDouble toFloat focals = some m)) ∧
      (focals.length % 2 = 0 →
        ∃ a b, sorted[focals.length / 2 - 1]? = some a ∧
          sorted[focals.length / 2]? = some b ∧
          median_focal toDouble toFloat focals =
            some (toFloat (toFloat (toDouble (a + b)) * (1 / 2))) ∧
          (toDouble (a + b) = a + b → toFloat (a + b) = a + b →
            toFloat ((a + b) / 2) = (a + b) / 2 →
            median_focal toDouble toFloat focals = some ((a + b) / 2))) ∧
      (∀ other : List ℚ, List.Perm other focals →
        median_focal toDouble toFloat other = median_focal toDouble toFloat focals) ∧
      (toFloat 20 = 20 → median_focal toDouble toFloat [10, 20, 30] = some 20) ∧
      (toDouble 50 = 50 → toFloat 50 = 50 → toFloat 25 = 25 →
        median_focal toDouble toFloat [10, 20, 30, 40] = some 25) := by
  refine ⟨focals.insertionSort (· ≤ ·), List.sorted_insertionSort _ focals,
    List.perm_insertionSort _ focals, ?_, ?_, ?_, ?_, ?_⟩
  · intro hodd
    obtain ⟨m, hm, hres⟩ := median_focal_odd toDouble toFloat focals hodd
    exact ⟨m, hm, hres, fun hex => by rw [hres, hex]⟩
  · intro heven
    obtain ⟨a, b, ha, hb, hres⟩ := median_focal_even toDouble toFloat focals hne heven
    refine ⟨a, b, ha, hb, hres, fun hD hF hH => ?_⟩
    have hhalf : (a + b) * (1 / 2) = (a + b) / 2 := by ring
    rw [hres, hD, hF, hhalf, hH]
  · intro other hperm
    have hs : other.insertionSort (· ≤ ·) = focals.insertionSort (· ≤ ·) :=
      List.eq_of_perm_of_sorted
        (((List.perm_insertionSort _ other).trans hperm).trans
          (List.perm_insertionSort _ focals).symm)
        (List.sorted_insertionSort _ other) (List.sorted_insertionSort _ focals)
    unfold median_focal
    rw [hs]
  · intro h20
    rw [median_focal_three, h20]
  · intro hD hF hH
    have hhalf : (50 : ℚ) * (1 / 2) = 25 := by norm_num
    rw [median_focal_four, hD, hF, hhalf, hH]

/-- Worked instance of C6: three focal lengths given out of order, with a
single-precision rounding that is not the identity. -/
theorem median_focal_spec_witness :
    median_focal id demoToFloat [30, 10, 20] = some 20 ∧
    ∃ sorted : List ℚ,
      List.Sorted (· ≤ ·) sorted ∧ List.Perm sorted [30, 10, 20] ∧
      (([30, 10, 20] : List ℚ).length % 2 = 1 →
        ∃ m, sorted[([30, 10, 20] : List ℚ).length / 2]? = some m ∧
          median_focal id demoToFloat [30, 10, 20] = some (demoToFloat m) ∧
          (demoToFloat m = m → median_focal id demoToFloat [30, 10, 20] = some m)) ∧
      (([30, 10, 20] : List ℚ).length % 2 = 0 →
        ∃ a b, sorted[([30, 10, 20] : List ℚ).length / 2 - 1]? = some a ∧
          sorted[([30, 10, 20] : List ℚ).length / 2]? = some b ∧
          median_focal id demoToFloat [30, 10, 20] =
            some (demoToFloat (demoToFloat (id (a + b)) * (1 / 2))) ∧
          (id (a + b) = a + b → demoToFloat (a + b) = a + b →
            demoToFloat ((a + b) / 2) = (a + b) / 2 →
            median_focal id demoToFloat [30, 10, 20] = some ((a + b) / 2))) ∧
      (∀ other : List ℚ, List.Perm other [30, 10, 20] →
        median_focal id demoToFloat other = median_focal id demoToFloat [30, 10, 20]) ∧
      (demoToFloat 20 = 20 → median_focal id demoToFloat [10, 20, 30] = some 20) ∧
      (id (50 : ℚ) = 50 → demoToFloat 50 = 50 → demoToFloat 25 = 25 →
        median_focal id demoToFloat [10, 20, 30, 40] = some 25) :=
  ⟨by decide, median_focal_spec id demoToFloat [30, 10, 20] (by decide)⟩

/-- C9 (canonical index).  For `N >= 1`, a linear index `i < N * N` and its
row-major decomposition `r = i / N`, `c = i % N` with `r ≠ c`: the decomposition
is defined, `pair_idx` is `i` when `r < c` and the linear index `c * N + r` of
`(c, r)` when `r > c`, and decomposing `pair_idx` again gives a pair `(r1, c1)`
with `r1 < c1` that is `(r, c)` or `(c, r)`.  For `N = 4`, `i = 9` the
decomposition is `(2, 1)` and `pair_idx` is 6. -/
theorem canonical_index (N i : Nat) (hN : 1 ≤ N) (hi : i < N * N)
    (hne : i / N ≠ i % N) :
    IND2SUB_RM i N = some (i / N, i % N) ∧
    (i / N < i % N → pair_idx i (i / N) (i % N) N = i) ∧
    (i % N < i / N → pair_idx i (i / N) (i % N) N = i % N * N + i / N) ∧
    (∃ r1 c1, IND2SUB_RM (pair_idx i (i / N) (i % N) N) N = some (r1, c1) ∧
      r1 < c1 ∧ ((r1 = i / N ∧ c1 = i % N) ∨ (r1 = i % N ∧ c1 = i / N))) ∧
    IND2SUB_RM 9 4 = some (2, 1) ∧ pair_idx 9 2 1 4 = 6 := by
  have hr : i / N < N := Nat.div_lt_of_lt_mul hi
  refine ⟨IND2SUB_RM_pos hN, ?_, ?_, ?_, by decide, by decide⟩
  · intro h
    simp [pair_idx, h]
  · intro h
    simp [pair_idx, SUB2IND_RM, Nat.lt_asymm h]
  · rcases Nat.lt_or_gt_of_ne hne with h | h
    · refine ⟨i / N, i % N, ?_, h, Or.inl ⟨rfl, rfl⟩⟩
      have hp : pair_idx i (i / N) (i % N) N = i := by simp [pair_idx, h]
      rw [hp]
      exact IND2SUB_RM_pos hN
    · refine ⟨i % N, i / N, ?_, h, Or.inr ⟨rfl, rfl⟩⟩
      have hp : pair_idx i (i / N) (i % N) N = i % N * N + i / N := by
        simp [pair_idx, SUB2IND_RM, Nat.lt_asymm h]
      obtain ⟨d, m⟩ := div_mod_row_major (r := i % N) hr
      rw [hp, IND2SUB_RM_pos hN, d, m]

/-- Worked instance of C9: `N = 4`, `i = 9`. -/
theorem canonical_index_witness :
    IND2SUB_RM 9 4 = some (9 / 4, 9 % 4) ∧
    (9 / 4 < 9 % 4 → pair_idx 9 (9 / 4) (9 % 4) 4 = 9) ∧
    (9 % 4 < 9 / 4 → pair_idx 9 (9 / 4) (9 % 4) 4 = 9 % 4 * 4 + 9 / 4) ∧
    (∃ r1 c1, IND2SUB_RM (pair_idx 9 (9 / 4) (9 % 4) 4) 4 = some (r1, c1) ∧
      r1 < c1 ∧ ((r1 = 9 / 4 ∧ c1 = 9 % 4) ∨ (r1 = 9 % 4 ∧ c1 = 9 / 4))) ∧
    IND2SUB_RM 9 4 = some (2, 1) ∧ pair_idx 9 2 1 4 = 6 :=
  canonical_index 4 9 (by decide) (by decide) (by decide)

/-- C10 (in-bounds canonical lookup).  For `N >= 1`, a collected list of any
length and a loop index `i` below that length with `r ≠ c`, the index
`pair_idx` at which the list is read is at most `i` (strictly below `i` when
`r > c` and `N >= 2`), hence below the length, and the read yields a record.
The index arithmetic fails only for `N = 0`, and the loop as a whole fails
exactly for `N = 0` with a non-empty collected list. -/
theorem canonical_lookup_in_bounds {Mat R : Type} (ops : MatOps Mat)
    (dflt : MatchesInfo Mat R) (N : Nat) (edlist : List (edge_data Mat R)) :
    (1 ≤ N → ∀ i, i < edlist.length → i / N ≠ i % N →
      pair_idx i (i / N) (i % N) N ≤ i ∧
      (i % N < i / N → 2 ≤ N → pair_idx i (i / N) (i % N) N < i) ∧
      pair_idx i (i / N) (i % N) N < edlist.length ∧
      ∃ rec, edlist[pair_idx i (i / N) (i % N) N]? = some rec) ∧
    (∀ i, IND2SUB_RM i N = none ↔ N = 0) ∧
    (compile_matches_loop ops dflt N edlist = none ↔ N = 0 ∧ edlist ≠ []) := by
  refine ⟨?_, ?_, ?_⟩
  · intro hN i hi _
    have hle := pair_idx_le (i := i) hN
    have hlt : pair_idx i (i / N) (i % N) N < edlist.length :=
      Nat.lt_of_le_of_lt hle hi
    exact ⟨hle, fun h h2 => pair_idx_lt h2 h, hlt, _, List.getElem?_eq_getElem hlt⟩
  · intro i
    unfold IND2SUB_RM
    by_cases h : N = 0 <;> simp [h]
  · constructor
    · intro hnone
      by_cases hN : N = 0
      · refine ⟨hN, fun hnil => ?_⟩
        subst hnil
        rw [compile_matches_loop_nil] at hnone
        cases hnone
      · obtain ⟨out, hout, _⟩ :=
          compile_matches_loop_cells ops dflt edlist (Nat.pos_of_ne_zero hN)
        rw [hout] at hnone
        cases hnone
    · rintro ⟨hN, hnil⟩
      subst hN
      cases edlist with
      | nil => exact absurd rfl hnil
      | cons e es => exact compile_matches_loop_zero_cons ops dflt e es

/-- Worked instance of C10: two images, three collected records, loop index 2
(cell (1,0)) reads record 1. -/
theorem canonical_lookup_in_bounds_witness :
    pair_idx 2 (2 / 2) (2 % 2) 2 ≤ 2 ∧
    (2 % 2 < 2 / 2 → 2 ≤ 2 → pair_idx 2 (2 / 2) (2 % 2) 2 < 2) ∧
    pair_idx 2 (2 / 2) (2 % 2) 2 < demoList3.length ∧
    ∃ rec, demoList3[pair_idx 2 (2 / 2) (2 % 2) 2]? = some rec :=
  (canonical_lookup_in_bounds demoOps demoDflt 2 demoList3).1 (by decide) 2
    (by decide) (by decide)

end Stitch
